import Mathlib

/-!
Verification of the `evaluate-generative-social-choice-topics` pipeline.

The development shallowly embeds the three Python scripts:
  * `evaluate_diversity.py`   (namespace `EvalDiv`)
  * `generate_statements_unified.py` (namespace `GenStmts`)
  * `format_results_unified.py` (namespace `FmtRes`)

Machine reals (numpy floats) are modelled by `ℝ` (exact arithmetic, as the
claims request), Python strings by `String` / `List Char`, decoded JSON
values by an inductive `Json` type, and the OpenAI calls
(`get_embedding`, `json.loads` of a model response) by explicit function
parameters.  Fallible Python code (uncaught exceptions) is modelled with
`Option`.
-/

namespace EvalDiv

/-- `np.dot` on two equal-length Python lists of floats:
the sum of pointwise products. -/
noncomputable def np_dot (vec1 vec2 : List ℝ) : ℝ :=
  (List.zipWith (· * ·) vec1 vec2).sum

/-- `np.linalg.norm`: the Euclidean norm, the square root of the
sum of squares. -/
noncomputable def np_norm (vec : List ℝ) : ℝ :=
  Real.sqrt ((vec.map (fun x => x * x)).sum)

/-- `cosine_distance` from `evaluate_diversity.py` (lines 30-44):
`1 - np.dot(vec1, vec2) / (np.linalg.norm(vec1) * np.linalg.norm(vec2))`. -/
noncomputable def cosine_distance (vec1 vec2 : List ℝ) : ℝ :=
  1 - np_dot vec1 vec2 / (np_norm vec1 * np_norm vec2)

/-- `itertools.combinations(l, 2)`: all position pairs `i < j` of a list, in
lexicographic order of positions. -/
def pairs {α : Type _} : List α → List (α × α)
  | [] => []
  | x :: xs => (xs.map fun y => (x, y)) ++ pairs xs

/-- `calculate_semantic_diversity` from `evaluate_diversity.py`
(lines 62-85).  `emb` stands for `get_embedding` (the remote embedding
call), treated as a given function from text to vector.  For fewer than 2
reasons the function returns `0.0`; otherwise it embeds every reason,
takes the cosine distance of every pair from
`combinations(enumerate(embeddings), 2)` and returns `np.mean` of the
resulting list (its sum divided by its length). -/
noncomputable def calculate_semantic_diversity (emb : String → List ℝ) (reasons : List String) : ℝ :=
  if reasons.length < 2 then 0
  else
    let embeddings := reasons.map emb
    let distances := (pairs embeddings).map fun p => cosine_distance p.1 p.2
    distances.sum / distances.length

/-- The texts sent to the embedding API by `calculate_semantic_diversity`,
in call order: none when there are fewer than 2 reasons (the function
returns before the list comprehension), otherwise exactly one call per
reason, in order. -/
def embeddingCalls (reasons : List String) : List String :=
  if reasons.length < 2 then [] else reasons

section PairsLemmas

variable {α : Type _} {M : Type _} [AddCommMonoid M]

lemma sum_map_get (g : α → M) (l : List α) :
    (l.map g).sum = ∑ i : Fin l.length, g (l.get i) := by
  induction l with
  | nil => simp
  | cons x xs ih =>
      show g x + (xs.map g).sum = ∑ i : Fin (xs.length + 1), g ((x :: xs).get i)
      rw [Fin.sum_univ_succ, ih]
      simp only [List.get_cons_zero, List.get_cons_succ']

lemma pairs_map (g : α → β) (l : List α) :
    pairs (l.map g) = (pairs l).map fun p => (g p.1, g p.2) := by
  induction l with
  | nil => rfl
  | cons x xs ih =>
      simp only [List.map_cons, pairs, ih, List.map_append, List.map_map]
      rfl

lemma length_pairs (l : List α) : (pairs l).length = l.length.choose 2 := by
  induction l with
  | nil => rfl
  | cons x xs ih =>
      show ((xs.map fun y => (x, y)) ++ pairs xs).length = (xs.length + 1).choose 2
      rw [List.length_append, List.length_map, ih, Nat.choose_succ_succ,
        Nat.choose_one_right]

lemma pairs_map_sum (f : α → α → M) (l : List α) :
    ((pairs l).map fun p => f p.1 p.2).sum
      = ∑ p ∈ Finset.univ.filter (fun p : Fin l.length × Fin l.length => p.1 < p.2),
          f (l.get p.1) (l.get p.2) := by
  induction l with
  | nil => simp [pairs]
  | cons x xs ih =>
      have hL : ((pairs (x :: xs)).map fun p => f p.1 p.2).sum
          = (xs.map fun y => f x y).sum + ((pairs xs).map fun p => f p.1 p.2).sum := by
        show (((xs.map fun y => (x, y)) ++ pairs xs).map fun p => f p.1 p.2).sum = _
        rw [List.map_append, List.sum_append, List.map_map]
        rfl
      have h0 : (∑ j : Fin (xs.length + 1),
          if (0 : Fin (xs.length + 1)) < j
            then f ((x :: xs).get (0 : Fin (xs.length + 1))) ((x :: xs).get j) else 0)
          = (xs.map fun y => f x y).sum := by
        rw [Fin.sum_univ_succ, sum_map_get]
        simp [Fin.succ_pos, List.get_cons_succ', List.get_cons_zero]
      have h1 : ∀ i : Fin xs.length,
          (∑ j : Fin (xs.length + 1),
            if i.succ < j then f ((x :: xs).get i.succ) ((x :: xs).get j) else 0)
          = ∑ j : Fin xs.length, if i < j then f (xs.get i) (xs.get j) else 0 := by
        intro i
        rw [Fin.sum_univ_succ]
        simp [Fin.succ_lt_succ_iff, Fin.not_lt_zero, List.get_cons_succ']
      have h2 : (∑ i : Fin xs.length, ∑ j : Fin xs.length,
          if i < j then f (xs.get i) (xs.get j) else 0)
          = ∑ p ∈ Finset.univ.filter (fun p : Fin xs.length × Fin xs.length => p.1 < p.2),
              f (xs.get p.1) (xs.get p.2) := by
        rw [Finset.sum_filter, Fintype.sum_prod_type]
      have hR : (∑ p ∈ Finset.univ.filter
            (fun p : Fin (xs.length + 1) × Fin (xs.length + 1) => p.1 < p.2),
            f ((x :: xs).get p.1) ((x :: xs).get p.2))
          = (xs.map fun y => f x y).sum
            + ∑ p ∈ Finset.univ.filter (fun p : Fin xs.length × Fin xs.length => p.1 < p.2),
                f (xs.get p.1) (xs.get p.2) := by
        rw [Finset.sum_filter, Fintype.sum_prod_type, Fin.sum_univ_succ, h0]
        simp only [h1]
        rw [h2]
      exact hL.trans (by rw [ih]; exact hR.symm)

lemma pairs_card_filter (l : List α) :
    (Finset.univ.filter (fun p : Fin l.length × Fin l.length => p.1 < p.2)).card
      = l.length.choose 2 := by
  have h := pairs_map_sum (fun _ _ => (1 : ℕ)) l
  simp only [Finset.sum_const, smul_eq_mul, mul_one] at h
  have hlen : ((pairs l).map fun _ : α × α => (1 : ℕ)).sum = (pairs l).length := by
    simp [List.map_const']
  rw [hlen] at h
  rw [← h, length_pairs]

lemma pairs_sum_perm (f : α → α → M) (hf : ∀ a b, f a b = f b a)
    {l₁ l₂ : List α} (h : l₁.Perm l₂) :
    ((pairs l₁).map fun p => f p.1 p.2).sum
      = ((pairs l₂).map fun p => f p.1 p.2).sum := by
  induction h with
  | nil => rfl
  | cons x h ih =>
      simp only [pairs, List.map_append, List.sum_append, List.map_map]
      rw [ih, List.Perm.sum_eq (h.map _)]
  | swap x y l =>
      simp only [pairs, List.map_append, List.sum_append, List.map_map, List.map_cons,
        List.sum_cons]
      rw [hf y x]
      abel
  | trans h₁ h₂ ih₁ ih₂ => exact ih₁.trans ih₂

end PairsLemmas

lemma cosine_distance_comm (v w : List ℝ) :
    cosine_distance v w = cosine_distance w v := by
  unfold cosine_distance np_dot
  rw [List.zipWith_comm_of_comm _ mul_comm, mul_comm (np_norm v)]

lemma zipWith_ofFn {α β γ : Type _} (h : α → β → γ) :
    ∀ {n : ℕ} (f : Fin n → α) (g : Fin n → β),
      List.zipWith h (List.ofFn f) (List.ofFn g) = List.ofFn fun i => h (f i) (g i)
  | 0, _, _ => rfl
  | n + 1, f, g => by
      rw [List.ofFn_succ, List.ofFn_succ, List.ofFn_succ, List.zipWith_cons_cons,
        zipWith_ofFn h _ _]

/-- Claim C2: `cosine_distance(v1, v2)` equals `1` minus the cosine
similarity `(v1 . v2) / (norm v1 * norm v2)` of the two vectors, over exact
real arithmetic; stated for every pair of nonzero `n`-dimensional vectors,
presented as `List.ofFn` of functions on `Fin n`. -/
theorem claim_C2_cosine_distance_formula
    (n : ℕ) (f g : Fin n → ℝ) (hf : f ≠ 0) (hg : g ≠ 0) :
    cosine_distance (List.ofFn f) (List.ofFn g)
      = 1 - (∑ i, f i * g i)
          / (Real.sqrt (∑ i, f i * f i) * Real.sqrt (∑ i, g i * g i)) := by
  unfold cosine_distance np_dot np_norm
  rw [zipWith_ofFn, List.map_ofFn, List.map_ofFn, List.sum_ofFn, List.sum_ofFn,
    List.sum_ofFn]
  rfl

/-- Witness for C2 at the concrete nonzero vectors `[1]` and `[1]`. -/
theorem claim_C2_witness :
    ((fun _ : Fin 1 => (1 : ℝ)) ≠ 0)
      ∧ cosine_distance (List.ofFn fun _ : Fin 1 => (1 : ℝ))
            (List.ofFn fun _ : Fin 1 => (1 : ℝ))
          = 1 - (∑ i : Fin 1, (1 : ℝ) * 1)
              / (Real.sqrt (∑ i : Fin 1, (1 : ℝ) * 1)
                  * Real.sqrt (∑ i : Fin 1, (1 : ℝ) * 1)) := by
  have h1 : (fun _ : Fin 1 => (1 : ℝ)) ≠ 0 := by
    intro h
    have := congrFun h ⟨0, by norm_num⟩
    norm_num at this
  exact ⟨h1, claim_C2_cosine_distance_formula 1 _ _ h1 h1⟩

/-- Claim C1: for every list of at least 2 reason texts,
`calculate_semantic_diversity` returns the arithmetic mean of the cosine
distances over all `n*(n-1)/2` unordered pairs of the texts' embeddings,
with `get_embedding` treated as a given function `emb` from text to
vector: the result equals the sum of the cosine distances over all index
pairs `i < j` divided by `n*(n-1)/2`, that index-pair set has exactly
`n*(n-1)/2` elements, and the embedding API is called exactly once per
text, in order. -/
theorem claim_C1_diversity_is_mean_of_pairwise_distances
    (emb : String → List ℝ) (reasons : List String) (h : 2 ≤ reasons.length) :
    calculate_semantic_diversity emb reasons
        = (∑ p ∈ Finset.univ.filter
              (fun p : Fin reasons.length × Fin reasons.length => p.1 < p.2),
            cosine_distance (emb (reasons.get p.1)) (emb (reasons.get p.2)))
          / ((reasons.length * (reasons.length - 1) / 2 : ℕ) : ℝ)
      ∧ (Finset.univ.filter
            (fun p : Fin reasons.length × Fin reasons.length => p.1 < p.2)).card
          = reasons.length * (reasons.length - 1) / 2
      ∧ embeddingCalls reasons = reasons := by
  refine ⟨?_, ?_, ?_⟩
  · unfold calculate_semantic_diversity
    rw [if_neg (Nat.not_lt.mpr h)]
    show ((pairs (reasons.map emb)).map fun p => cosine_distance p.1 p.2).sum
        / (((pairs (reasons.map emb)).map fun p => cosine_distance p.1 p.2).length : ℝ)
      = _
    have hd : (pairs (reasons.map emb)).map (fun p => cosine_distance p.1 p.2)
        = (pairs reasons).map fun p => cosine_distance (emb p.1) (emb p.2) := by
      rw [pairs_map, List.map_map]
      rfl
    rw [hd, pairs_map_sum (fun a b => cosine_distance (emb a) (emb b)) reasons,
      List.length_map, length_pairs, Nat.choose_two_right]
  · rw [pairs_card_filter, Nat.choose_two_right]
  · unfold embeddingCalls
    rw [if_neg (Nat.not_lt.mpr h)]

/-- Witness for C1 at the concrete two-element reason list. -/
theorem claim_C1_witness :
    2 ≤ (["a", "b"] : List String).length
      ∧ (calculate_semantic_diversity (fun _ => []) ["a", "b"]
            = (∑ p ∈ Finset.univ.filter
                  (fun p : Fin (["a", "b"] : List String).length
                      × Fin (["a", "b"] : List String).length => p.1 < p.2),
                cosine_distance ((fun _ => []) ((["a", "b"] : List String).get p.1))
                  ((fun _ => []) ((["a", "b"] : List String).get p.2)))
              / (((["a", "b"] : List String).length
                  * ((["a", "b"] : List String).length - 1) / 2 : ℕ) : ℝ)
          ∧ (Finset.univ.filter
                (fun p : Fin (["a", "b"] : List String).length
                    × Fin (["a", "b"] : List String).length => p.1 < p.2)).card
              = (["a", "b"] : List String).length
                  * ((["a", "b"] : List String).length - 1) / 2
          ∧ embeddingCalls ["a", "b"] = ["a", "b"]) :=
  ⟨by decide, claim_C1_diversity_is_mean_of_pairwise_distances
      (fun _ => []) ["a", "b"] (by decide)⟩

/-- Claim C8: for every list of reasons with fewer than 2 elements,
`calculate_semantic_diversity` returns exactly `0.0` and performs no
embedding API calls. -/
theorem claim_C8_short_list_returns_zero_without_api_calls
    (emb : String → List ℝ) (reasons : List String) (h : reasons.length < 2) :
    calculate_semantic_diversity emb reasons = 0 ∧ embeddingCalls reasons = [] := by
  unfold calculate_semantic_diversity embeddingCalls
  rw [if_pos h, if_pos h]
  exact ⟨rfl, rfl⟩

/-- Witness for C8 at the concrete singleton reason list. -/
theorem claim_C8_witness :
    (["a"] : List String).length < 2
      ∧ (calculate_semantic_diversity (fun _ => []) ["a"] = 0
          ∧ embeddingCalls ["a"] = []) :=
  ⟨by decide, claim_C8_short_list_returns_zero_without_api_calls
      (fun _ => []) ["a"] (by decide)⟩

/-- Claim C9: the diversity score is permutation-invariant: for every
list of reason texts and every permutation of it,
`calculate_semantic_diversity` returns the same value (with
`get_embedding` treated as a deterministic function `emb`). -/
theorem claim_C9_diversity_permutation_invariant
    (emb : String → List ℝ) (l₁ l₂ : List String) (h : l₁.Perm l₂) :
    calculate_semantic_diversity emb l₁ = calculate_semantic_diversity emb l₂ := by
  unfold calculate_semantic_diversity
  have hlen : l₁.length = l₂.length := h.length_eq
  by_cases h2 : l₁.length < 2
  · rw [if_pos h2, if_pos (hlen ▸ h2)]
  · rw [if_neg h2, if_neg (hlen ▸ h2)]
    show ((pairs (l₁.map emb)).map fun p => cosine_distance p.1 p.2).sum
          / (((pairs (l₁.map emb)).map fun p => cosine_distance p.1 p.2).length : ℝ)
        = ((pairs (l₂.map emb)).map fun p => cosine_distance p.1 p.2).sum
          / (((pairs (l₂.map emb)).map fun p => cosine_distance p.1 p.2).length : ℝ)
    have hperm : (l₁.map emb).Perm (l₂.map emb) := h.map emb
    have hsum : ((pairs (l₁.map emb)).map fun p => cosine_distance p.1 p.2).sum
        = ((pairs (l₂.map emb)).map fun p => cosine_distance p.1 p.2).sum :=
      pairs_sum_perm cosine_distance cosine_distance_comm hperm
    have hcnt : ((pairs (l₁.map emb)).map fun p => cosine_distance p.1 p.2).length
        = ((pairs (l₂.map emb)).map fun p => cosine_distance p.1 p.2).length := by
      rw [List.length_map, List.length_map, length_pairs, length_pairs,
        List.length_map, List.length_map, hlen]
    rw [hsum, hcnt]

/-- The character sequence of the literal `".json"`. -/
def jsonExt : List Char := ['.', 'j', 's', 'o', 'n']

/-- Python `filename.replace('.json', '')`: scan left to right and delete
every (non-overlapping) occurrence of `".json"`. -/
def stripJsonExt : List Char → List Char
  | [] => []
  | '.' :: 'j' :: 's' :: 'o' :: 'n' :: rest => stripJsonExt rest
  | c :: rest => c :: stripJsonExt rest

/-- Python `name.split(sep, 1)`: `none` when `sep` does not occur in
`name` (Python then returns the one-element list `[name]`, and
`parse_filename` takes its `len(parts) == 2` branch only in the other
case), otherwise the parts before and after the first occurrence. -/
def splitOnce (sep : Char) : List Char → Option (List Char × List Char)
  | [] => none
  | c :: rest =>
    if c = sep then some ([], rest)
    else (splitOnce sep rest).map fun p => (c :: p.1, p.2)

/-- `parse_filename` from `evaluate_diversity.py` (lines 88-103): remove
every occurrence of `".json"`, split on the first underscore; on success
return `(topic, approach)`; `none` stands for Python's `(None, None)`. -/
def parse_filename (filename : String) : Option (String × String) :=
  match splitOnce '_' (stripJsonExt filename.toList) with
  | some (approach, topic) => some (String.mk topic, String.mk approach)
  | none => none

lemma stripJsonExt_not_prefix {c : Char} {l : List Char}
    (h : ¬ jsonExt <+: c :: l) :
    stripJsonExt (c :: l) = c :: stripJsonExt l := by
  rw [stripJsonExt.eq_def]
  split
  · simp_all
  · rename_i heq
    exact absurd (heq ▸ ⟨_, rfl⟩) h
  · rename_i heq2
    rw [List.cons.injEq] at heq2
    rw [heq2.1, heq2.2]

lemma jsonExt_prefix_append {x : List Char} (h : jsonExt <+: x ++ jsonExt) :
    x = [] ∨ jsonExt <+: x := by
  by_cases hlen : 5 ≤ x.length
  · exact Or.inr (List.prefix_of_prefix_length_le h (List.prefix_append x jsonExt)
      (by simpa [jsonExt] using hlen))
  · rcases Nat.eq_zero_or_pos x.length with hx | hx
    · exact Or.inl (List.length_eq_zero.mp hx)
    · exfalso
      obtain ⟨t, ht⟩ := h
      have hchar : (jsonExt ++ t)[x.length]? = (x ++ jsonExt)[x.length]? := by rw [ht]
      rw [List.getElem?_append_left (by simp [jsonExt]; omega),
        List.getElem?_append_right (Nat.le_refl _), Nat.sub_self] at hchar
      have h4 : x.length < 5 := by omega
      interval_cases hxl : x.length <;> simp [jsonExt] at hchar

lemma stripJsonExt_append_jsonExt :
    ∀ {l : List Char}, ¬ jsonExt <:+: l → stripJsonExt (l ++ jsonExt) = l
  | [], _ => rfl
  | c :: l, h => by
      have hnp : ¬ jsonExt <+: c :: l ++ jsonExt := by
        intro hp
        rcases jsonExt_prefix_append (x := c :: l) hp with h0 | h0
        · exact List.noConfusion h0
        · exact h h0.isInfix
      rw [List.cons_append, stripJsonExt_not_prefix (by simpa using hnp),
        stripJsonExt_append_jsonExt fun hi => h (List.infix_cons hi)]

lemma splitOnce_append {m t : List Char} {sep : Char} (hm : sep ∉ m) :
    splitOnce sep (m ++ sep :: t) = some (m, t) := by
  induction m with
  | nil => simp [splitOnce]
  | cons c m ih =>
      have hc : ¬ c = sep := fun hc => hm (hc ▸ List.mem_cons_self c m)
      rw [List.cons_append, splitOnce, if_neg hc,
        ih fun hmem => hm (List.mem_cons_of_mem c hmem)]
      rfl

/-- Witness for C9 at a concrete two-element permutation. -/
theorem claim_C9_witness :
    (["a", "b"] : List String).Perm ["b", "a"]
      ∧ calculate_semantic_diversity (fun _ => []) ["a", "b"]
          = calculate_semantic_diversity (fun _ => []) ["b", "a"] :=
  ⟨List.Perm.swap "b" "a" [],
    claim_C9_diversity_permutation_invariant (fun _ => []) ["a", "b"] ["b", "a"]
      (List.Perm.swap "b" "a" [])⟩

end EvalDiv

/-- Decoded JSON values (results of `json.loads`).  Python dicts are
modelled as key-value lists in insertion order (CPython dicts preserve
insertion order, and objects produced by `json.loads` have distinct
keys).  JSON numbers are modelled as integers; no claim depends on
fractional number payloads. -/
inductive Json : Type
  | str (s : String)
  | num (n : Int)
  | bool (b : Bool)
  | null
  | arr (elems : List Json)
  | obj (kvs : List (String × Json))

/-- Python truthiness of a decoded JSON value (used by `if response:` /
`if perspectives:`): `None`, `False`, zero, the empty string, the empty
list and the empty dict are falsy. -/
def Json.truthy : Json → Bool
  | .str s => s != ""
  | .num n => n != 0
  | .bool b => b
  | .null => false
  | .arr elems => !elems.isEmpty
  | .obj kvs => !kvs.isEmpty

namespace GenStmts

/-- The topic ids of `TOPICS` in `generate_statements_unified.py`
(lines 21-34). -/
def topicIds : List String := ["elections", "littering", "campus_protests"]

/-- The method names produced by `get_methods` (lines 101-128): the
prefix `"1-shot-"` or `""` applied to `"criteria-based"` and
`"free-form"`, for the two shot types. -/
def methodNames : List String :=
  ["1-shot-criteria-based", "1-shot-free-form", "criteria-based", "free-form"]

/-- Python `text.find(c)` for a single character: index of the first
occurrence, `none` standing for `-1`. -/
def py_find (c : Char) : List Char → Option Nat
  | [] => none
  | a :: rest => if a = c then some 0 else (py_find c rest).map (· + 1)

/-- Python `text.rfind(c)` for a single character: index of the last
occurrence, `none` standing for `-1`. -/
def py_rfind (c : Char) (l : List Char) : Option Nat :=
  (py_find c l.reverse).map fun i => l.length - 1 - i

/-- `extract_json` from `generate_statements_unified.py` (lines 85-99):
slice the response text from the first `'\x7b'` to the last `'\x7d'`
(inclusive) and parse the slice.  The parameter `loads` abstracts
`json.loads`, returning `none` for a `JSONDecodeError`.  The result is
`none` when there is no opening brace, when the last closing brace does
not lie after the first opening brace, or when parsing fails. -/
def extract_json (loads : List Char → Option Json) (response_text : List Char) :
    Option Json :=
  match py_find '\x7b' response_text, py_rfind '\x7d' response_text with
  | some start_idx, some rb =>
    let end_idx := rb + 1
    if start_idx < end_idx then
      loads ((response_text.drop start_idx).take (end_idx - start_idx))
    else none
  | _, _ => none

/-- One topic/method iteration of `main` in
`generate_statements_unified.py` (lines 170-193): from the API response
(`none` models `generate_perspectives` returning `None` after a caught
exception) to the list of files written for that pair, as
(filename, dumped JSON value) pairs.  The guards mirror the source:
`if response:` (empty text is falsy) and `if perspectives:` (`None` and
the empty dict are falsy). -/
def runPair (loads : List Char → Option Json) (response : Option (List Char))
    (methodName topicId : String) : List (String × Json) :=
  match response with
  | none => []
  | some r =>
    if r.isEmpty then []
    else
      match extract_json loads r with
      | none => []
      | some perspectives =>
        if perspectives.truthy
        then [(methodName ++ "_" ++ topicId ++ ".json", perspectives)]
        else []

/-- A concrete stand-in for `json.loads`, defined on the two documents
used in concrete instances below and agreeing with Python there:
`json.loads` maps `"\x7b\x7d"` to the empty dict and the one-key
document to a one-key object. -/
def loadsFixture : List Char → Option Json := fun l =>
  if l = "\x7b\x7d".toList then some (Json.obj [])
  else if l = "\x7b\"a\": 1\x7d".toList then some (Json.obj [("a", Json.num 1)])
  else none

/-- Counterexample to claim C4 as stated: on the response text
`"\x7b\x7d"` the extraction succeeds (`extract_json` returns the parsed
empty object, exactly as Python's `json.loads` does), yet the generator
writes no file for the pair, because `if perspectives:` is false for an
empty dict. -/
theorem claim_C4_counterexample :
    GenStmts.extract_json loadsFixture "\x7b\x7d".toList = some (Json.obj [])
      ∧ GenStmts.runPair loadsFixture (some "\x7b\x7d".toList)
          "criteria-based" "elections" = [] :=
  ⟨rfl, rfl⟩

/-- Claim C4 (amended): the generation script writes an output file for a
topic/method pair only after a successful transform: if the API call
raises (`response = none`), or extraction fails (`extract_json` returns
`none`), no file is written; when extraction succeeds with a truthy
(non-empty) object, the parsed object is written; when extraction
succeeds with the empty object the script treats it as a failure and
writes nothing. -/
theorem claim_C4_no_write_without_successful_transform
    (loads : List Char → Option Json) (response : Option (List Char))
    (methodName topicId : String) :
    (response = none → GenStmts.runPair loads response methodName topicId = [])
    ∧ (∀ r, response = some r → GenStmts.extract_json loads r = none →
        GenStmts.runPair loads response methodName topicId = [])
    ∧ (∀ r j, response = some r → GenStmts.extract_json loads r = some j →
        j.truthy = true →
        GenStmts.runPair loads response methodName topicId
          = [(methodName ++ "_" ++ topicId ++ ".json", j)])
    ∧ (∀ r, response = some r →
        GenStmts.extract_json loads r = some (Json.obj []) →
        GenStmts.runPair loads response methodName topicId = []) := by
  refine ⟨?_, ?_, ?_, ?_⟩
  · intro h
    rw [h]
    rfl
  · intro r hr hx
    rw [hr]
    simp [GenStmts.runPair, hx]
  · intro r j hr hx ht
    rw [hr]
    cases r with
    | nil => exact absurd hx (by simp [GenStmts.extract_json, GenStmts.py_find,
        GenStmts.py_rfind])
    | cons c rest => simp [GenStmts.runPair, hx, ht]
  · intro r hr hx
    rw [hr]
    simp [GenStmts.runPair, hx, Json.truthy]

/-- Witness for C4 (third conjunct) at a concrete successful extraction:
the response is a valid one-key JSON document and the file is written. -/
theorem claim_C4_witness :
    some ("\x7b\"a\": 1\x7d".toList : List Char) = some "\x7b\"a\": 1\x7d".toList
      ∧ GenStmts.extract_json loadsFixture "\x7b\"a\": 1\x7d".toList
          = some (Json.obj [("a", Json.num 1)])
      ∧ (Json.obj [("a", Json.num 1)]).truthy = true
      ∧ GenStmts.runPair loadsFixture (some "\x7b\"a\": 1\x7d".toList)
          "criteria-based" "elections"
          = [("criteria-based_elections.json", Json.obj [("a", Json.num 1)])] :=
  ⟨rfl, rfl, rfl,
    (claim_C4_no_write_without_successful_transform loadsFixture
        (some "\x7b\"a\": 1\x7d".toList) "criteria-based" "elections").2.2.1
      _ _ rfl rfl rfl⟩

/-- Counterexample to claim C6 as stated: on the response
`"ab\x7b\x7dcd"` the extraction succeeds (the slice between the first
opening and last closing brace is the empty object, which `json.loads`
parses), yet nothing is written for the pair. -/
theorem claim_C6_counterexample :
    GenStmts.extract_json loadsFixture "ab\x7b\x7dcd".toList = some (Json.obj [])
      ∧ GenStmts.runPair loadsFixture (some "ab\x7b\x7dcd".toList)
          "free-form" "littering" = [] :=
  ⟨rfl, rfl⟩

/-- Claim C6 (amended): for every topic and method for which extraction
succeeds with a truthy (non-empty) object, the generator writes exactly
one file for that pair, named `method ++ "_" ++ topic ++ ".json"`, whose
dumped content is the parsed perspectives object, and writes nothing
else; when the extracted object is empty, nothing is written (see the
counterexample). -/
theorem claim_C6_writes_exactly_parsed_json_file
    (loads : List Char → Option Json) (r : List Char) (j : Json)
    (methodName topicId : String)
    (hx : GenStmts.extract_json loads r = some j) (ht : j.truthy = true) :
    GenStmts.runPair loads (some r) methodName topicId
      = [(methodName ++ "_" ++ topicId ++ ".json", j)] := by
  cases r with
  | nil => exact absurd hx (by simp [GenStmts.extract_json, GenStmts.py_find,
      GenStmts.py_rfind])
  | cons c rest => simp [GenStmts.runPair, hx, ht]

/-- Witness for C6 at a concrete successful extraction. -/
theorem claim_C6_witness :
    GenStmts.extract_json loadsFixture "\x7b\"a\": 1\x7d".toList
        = some (Json.obj [("a", Json.num 1)])
      ∧ (Json.obj [("a", Json.num 1)]).truthy = true
      ∧ GenStmts.runPair loadsFixture (some "\x7b\"a\": 1\x7d".toList)
          "free-form" "campus_protests"
          = [("free-form_campus_protests.json", Json.obj [("a", Json.num 1)])] :=
  ⟨rfl, rfl,
    claim_C6_writes_exactly_parsed_json_file loadsFixture _ _
      "free-form" "campus_protests" rfl rfl⟩

/-- Counterexample to claim C3 as stated: the method name `"a.json"`
contains no underscore, yet `parse_filename` applied to the generated
filename `"a.json_elections.json"` returns `("elections", "a")`, not
`("elections", "a.json")`, because `replace('.json', '')` deletes every
occurrence of `".json"`, not only the final extension. -/
theorem claim_C3_counterexample :
    '_' ∉ "a.json".toList
      ∧ EvalDiv.parse_filename ("a.json" ++ "_" ++ "elections" ++ ".json")
          = some ("elections", "a")
      ∧ EvalDiv.parse_filename ("a.json" ++ "_" ++ "elections" ++ ".json")
          ≠ some ("elections", "a.json") := by
  refine ⟨by decide, by decide, by decide⟩

/-- Claim C3 (amended): for every method name containing no underscore
and every topic id such that `".json"` does not occur inside the string
`method ++ "_" ++ topic`, `parse_filename` applied to the filename the
generator writes, `method ++ "_" ++ topic ++ ".json"`, returns exactly
`(topic, method)`.  (In particular this holds for the four method names
and three topic ids the generator uses, including `"campus_protests"`
with its inner underscore; see the witness.) -/
theorem claim_C3_parse_filename_round_trip
    (method topic : String)
    (h1 : '_' ∉ method.toList)
    (h2 : ¬ EvalDiv.jsonExt <:+: (method ++ "_" ++ topic).toList) :
    EvalDiv.parse_filename (method ++ "_" ++ topic ++ ".json")
      = some (topic, method) := by
  unfold EvalDiv.parse_filename
  have hu : "_".data = ['_'] := by decide
  have hj : ".json".data = EvalDiv.jsonExt := by decide
  have htl : (method ++ "_" ++ topic ++ ".json").toList
      = (method.toList ++ '_' :: topic.toList) ++ EvalDiv.jsonExt := by
    show (method ++ "_" ++ topic ++ ".json").data = _
    simp [String.data_append, hu, hj, EvalDiv.jsonExt]
  have hgoal : (method ++ "_" ++ topic).toList = method.toList ++ '_' :: topic.toList := by
    show (method ++ "_" ++ topic).data = _
    simp [String.data_append, hu]
  have h2' : ¬ EvalDiv.jsonExt <:+: method.toList ++ '_' :: topic.toList :=
    fun hi => h2 (hgoal.symm ▸ hi)
  rw [htl, EvalDiv.stripJsonExt_append_jsonExt h2', EvalDiv.splitOnce_append h1]
  show some (String.mk topic.data, String.mk method.data) = some (topic, method)
  rfl

/-- Witness for C3 at the generator's method name
`"1-shot-criteria-based"` and topic id `"campus_protests"`. -/
theorem claim_C3_witness :
    '_' ∉ "1-shot-criteria-based".toList
      ∧ ¬ EvalDiv.jsonExt <:+:
            ("1-shot-criteria-based" ++ "_" ++ "campus_protests").toList
      ∧ EvalDiv.parse_filename
            ("1-shot-criteria-based" ++ "_" ++ "campus_protests" ++ ".json")
          = some ("campus_protests", "1-shot-criteria-based") :=
  ⟨by decide, by decide,
    claim_C3_parse_filename_round_trip "1-shot-criteria-based" "campus_protests"
      (by decide) (by decide)⟩

end GenStmts

namespace EvalDiv

/-- Python dict lookup `d[k]` / `k in d` on an insertion-ordered
association list (`json.loads` objects have unique keys, so the first
match is the entry). -/
def lookupKV {β : Type _} : List (String × β) → String → Option β
  | [], _ => none
  | (k, v) :: rest, key => if k = key then some v else lookupKV rest key

/-- Python dict assignment `d[k] = v` on an insertion-ordered
association list: replace in place when the key exists, append
otherwise. -/
def dictInsert {β : Type _} : List (String × β) → String → β → List (String × β)
  | [], k, v => [(k, v)]
  | (k', v') :: rest, k, v =>
    if k' = k then (k, v) :: rest else (k', v') :: dictInsert rest k v

/-- `results_by_topic[topic][approach] = score` together with the
`if topic not in results_by_topic` guard (lines 234-237). -/
def dictInsert2 {β : Type _} :
    List (String × List (String × β)) → String → String → β →
      List (String × List (String × β))
  | [], t, a, v => [(t, [(a, v)])]
  | (t', m) :: rest, t, a, v =>
    if t' = t then (t, dictInsert m a v) :: rest
    else (t', m) :: dictInsert2 rest t a v

/-- Lookup in the nested `results_by_topic` dict. -/
def lookup2 {β : Type _} (r : List (String × List (String × β)))
    (t a : String) : Option β :=
  (lookupKV r t).bind fun m => lookupKV m a

/-- `extract_reasons` from `evaluate_diversity.py` (lines 53-59): the
`'Reason'` values of those values of the decoded dict that are dicts
containing the key `'Reason'`, in insertion order. -/
def extract_reasons (kvs : List (String × Json)) : List Json :=
  kvs.filterMap fun kv =>
    match kv.2 with
    | Json.obj inner => lookupKV inner "Reason"
    | _ => none

/-- `get_embedding` (line 23-27) is applied to each reason:
`text.replace` raises for a non-string value, so only string reasons can
be embedded. -/
def asStr : Json → Option String
  | Json.str s => some s
  | _ => none

/-- The string payloads of a list of reasons, in order; `none` when some
reason is not a string (the embedding loop then raises). -/
def mapStr : List Json → Option (List String)
  | [] => some []
  | j :: rest =>
    match asStr j, mapStr rest with
    | some s, some ss => some (s :: ss)
    | _, _ => none

/-- The name-level checks of `main`'s loop (lines 203-212): the file is
not the skipped `formatted_results.txt`, and `parse_filename` yields a
truthy (non-`None`, nonempty) topic and approach. -/
def namePasses (f : String) : Bool :=
  f != "formatted_results.txt"
    && (match parse_filename f with
        | some (topic, approach) => topic != "" && approach != ""
        | none => false)

/-- A file is scored by `main` exactly when its name passes the checks,
its content is a dict, and it yields at least 2 reasons
(lines 200-237). -/
def eligible (file : String × Json) : Bool :=
  namePasses file.1
    && (match file.2 with
        | Json.obj kvs => !((extract_reasons kvs).length < 2 : Bool)
        | _ => false)

/-- Absence of the two uncaught-exception paths of `main`'s loop for a
file whose name passes the checks: the decoded content must be a dict
(`data.items()` raises otherwise), and when at least 2 reasons are
extracted they must all be strings (`get_embedding` raises otherwise). -/
def noCrash (file : String × Json) : Bool :=
  !namePasses file.1
    || (match file.2 with
        | Json.obj kvs =>
            ((extract_reasons kvs).length < 2 : Bool)
              || (mapStr (extract_reasons kvs)).isSome
        | _ => false)

/-- The score `main` records for a scored file: the semantic diversity of
the string payloads of its reasons (`none` when the file would instead
crash the script). -/
noncomputable def scoreOf (emb : String → List ℝ) (d : Json) : Option ℝ :=
  match d with
  | Json.obj kvs =>
      (mapStr (extract_reasons kvs)).map (calculate_semantic_diversity emb)
  | _ => none

/-- One iteration of the `for filepath in json_files` loop of `main`
(lines 200-237) acting on the accumulated
`(all_scores, results_by_topic)`; `none` models an uncaught exception
(non-dict decoded content at `data.items()`, or a non-string reason
reaching `get_embedding`), which aborts the whole script. -/
noncomputable def evalStep (emb : String → List ℝ)
    (acc : Option (List (String × ℝ) × List (String × List (String × ℝ))))
    (file : String × Json) :
    Option (List (String × ℝ) × List (String × List (String × ℝ))) :=
  match acc with
  | none => none
  | some (all_scores, results_by_topic) =>
    if file.1 = "formatted_results.txt" then some (all_scores, results_by_topic)
    else
      match parse_filename file.1 with
      | none => some (all_scores, results_by_topic)
      | some (topic, approach) =>
        if topic = "" ∨ approach = "" then some (all_scores, results_by_topic)
        else
          match file.2 with
          | Json.obj kvs =>
            if (extract_reasons kvs).length < 2 then
              some (all_scores, results_by_topic)
            else
              match mapStr (extract_reasons kvs) with
              | none => none
              | some texts =>
                some (dictInsert all_scores file.1
                        (calculate_semantic_diversity emb texts),
                  dictInsert2 results_by_topic topic approach
                    (calculate_semantic_diversity emb texts))
          | _ => none

/-- The recording behaviour of `main` in `evaluate_diversity.py`
(lines 184-237) on the sorted directory listing `files` of
`(filename, decoded JSON)` pairs: the final
`(all_scores, results_by_topic)`, or `none` if an iteration raised. -/
noncomputable def evalMain (emb : String → List ℝ) (files : List (String × Json)) :
    Option (List (String × ℝ) × List (String × List (String × ℝ))) :=
  files.foldl (evalStep emb) (some ([], []))

section DictLemmas

variable {β : Type _}

lemma lookupKV_dictInsert_self (A : List (String × β)) (k : String) (v : β) :
    lookupKV (dictInsert A k v) k = some v := by
  induction A with
  | nil => simp [dictInsert, lookupKV]
  | cons kv rest ih =>
      obtain ⟨k', v'⟩ := kv
      by_cases h : k' = k
      · simp [dictInsert, h, lookupKV]
      · simp [dictInsert, h, lookupKV, ih]

lemma lookupKV_dictInsert_ne (A : List (String × β)) {k k' : String} (v : β)
    (h : k' ≠ k) : lookupKV (dictInsert A k v) k' = lookupKV A k' := by
  induction A with
  | nil => simp [dictInsert, lookupKV, Ne.symm h]
  | cons kv rest ih =>
      obtain ⟨k₀, v₀⟩ := kv
      by_cases h₀ : k₀ = k
      · subst h₀
        simp [dictInsert, lookupKV, Ne.symm h]
      · simp [dictInsert, h₀, lookupKV, ih]

lemma lookup2_dictInsert2_self (R : List (String × List (String × β)))
    (t a : String) (v : β) : lookup2 (dictInsert2 R t a v) t a = some v := by
  induction R with
  | nil => simp [dictInsert2, lookup2, lookupKV]
  | cons tm rest ih =>
      obtain ⟨t₀, m⟩ := tm
      by_cases h : t₀ = t
      · simp [dictInsert2, h, lookup2, lookupKV, lookupKV_dictInsert_self]
      · simpa [dictInsert2, h, lookup2, lookupKV] using ih

lemma lookup2_dictInsert2_ne (R : List (String × List (String × β)))
    {t a t' a' : String} (v : β) (h : ¬ (t' = t ∧ a' = a)) :
    lookup2 (dictInsert2 R t a v) t' a' = lookup2 R t' a' := by
  induction R with
  | nil =>
      by_cases ht : t' = t
      · have ha : a' ≠ a := fun ha => h ⟨ht, ha⟩
        simp [dictInsert2, lookup2, lookupKV, ht, Ne.symm ha]
      · simp [dictInsert2, lookup2, lookupKV, Ne.symm ht]
  | cons tm rest ih =>
      obtain ⟨t₀, m⟩ := tm
      by_cases h₀ : t₀ = t
      · subst h₀
        by_cases ht : t' = t₀
        · have ha : a' ≠ a := fun ha => h ⟨ht, ha⟩
          simp [dictInsert2, lookup2, lookupKV, ht,
            lookupKV_dictInsert_ne m v ha]
        · simp [dictInsert2, lookup2, lookupKV, Ne.symm ht]
      · by_cases ht : t' = t₀
        · simp [dictInsert2, h₀, lookup2, lookupKV, ht]
        · simpa [dictInsert2, h₀, lookup2, lookupKV, Ne.symm ht] using ih

end DictLemmas

lemma evalStep_cases (emb : String → List ℝ) (file : String × Json)
    (hnc : noCrash file = true) (A : List (String × ℝ))
    (R : List (String × List (String × ℝ))) :
    (eligible file = false ∧ evalStep emb (some (A, R)) file = some (A, R))
    ∨ (∃ t a s, eligible file = true ∧ parse_filename file.1 = some (t, a)
        ∧ scoreOf emb file.2 = some s
        ∧ evalStep emb (some (A, R)) file
            = some (dictInsert A file.1 s, dictInsert2 R t a s)) := by
  obtain ⟨f, d⟩ := file
  by_cases h1 : f = "formatted_results.txt"
  · exact Or.inl ⟨by simp [eligible, namePasses, h1], by simp [evalStep, h1]⟩
  · cases hp : parse_filename f with
    | none =>
        exact Or.inl ⟨by simp [eligible, namePasses, hp],
          by simp [evalStep, h1, hp]⟩
    | some ta =>
        obtain ⟨t, a⟩ := ta
        by_cases h2 : t = "" ∨ a = ""
        · refine Or.inl ⟨?_, by simp [evalStep, h1, hp, h2]⟩
          rcases h2 with h2 | h2 <;> simp [eligible, namePasses, hp, h2]
        · have hnp : namePasses f = true := by
            simp only [not_or] at h2
            simp [namePasses, h1, hp, h2.1, h2.2]
          cases d with
          | obj kvs =>
              by_cases h3 : (extract_reasons kvs).length < 2
              · refine Or.inl ⟨?_, by simp [evalStep, h1, hp, h2, h3]⟩
                simp [eligible, hnp, h3]
              · have hsafe : (mapStr (extract_reasons kvs)).isSome = true := by
                  simp [noCrash, hnp, h3] at hnc
                  exact hnc
                obtain ⟨texts, htexts⟩ := Option.isSome_iff_exists.mp hsafe
                refine Or.inr ⟨t, a, calculate_semantic_diversity emb texts,
                  ?_, rfl, ?_, ?_⟩
                · simp [eligible, hnp, h3]
                · simp [scoreOf, htexts]
                · simp [evalStep, h1, hp, h2, h3, htexts]
          | str s => simp [noCrash, hnp] at hnc
          | num n => simp [noCrash, hnp] at hnc
          | bool b => simp [noCrash, hnp] at hnc
          | null => simp [noCrash, hnp] at hnc
          | arr elems => simp [noCrash, hnp] at hnc

lemma foldl_evalStep_some (emb : String → List ℝ) :
    ∀ (files : List (String × Json)) (A : List (String × ℝ))
      (R : List (String × List (String × ℝ))),
      (∀ x ∈ files, noCrash x = true) →
      ∃ A' R', files.foldl (evalStep emb) (some (A, R)) = some (A', R') := by
  intro files
  induction files with
  | nil => exact fun A R _ => ⟨A, R, rfl⟩
  | cons x rest ih =>
      intro A R h
      have hx := h x (List.mem_cons_self x rest)
      have hrest : ∀ y ∈ rest, noCrash y = true :=
        fun y hy => h y (List.mem_cons_of_mem x hy)
      rcases evalStep_cases emb x hx A R with ⟨_, hst⟩ | ⟨t, a, s, _, _, _, hst⟩
      · rw [List.foldl_cons, hst]
        exact ih A R hrest
      · rw [List.foldl_cons, hst]
        exact ih _ _ hrest

lemma foldl_lookupKV_pres (emb : String → List ℝ) (f : String) :
    ∀ (files : List (String × Json)) (A R A' R'),
      (∀ x ∈ files, noCrash x = true) →
      (∀ x ∈ files, x.1 = f → eligible x = false) →
      files.foldl (evalStep emb) (some (A, R)) = some (A', R') →
      lookupKV A' f = lookupKV A f := by
  intro files
  induction files with
  | nil =>
      intro A R A' R' _ _ hfold
      rw [List.foldl_nil] at hfold
      cases hfold
      rfl
  | cons x rest ih =>
      intro A R A' R' hnc hne hfold
      rw [List.foldl_cons] at hfold
      have hx := hnc x (List.mem_cons_self x rest)
      have hncr : ∀ y ∈ rest, noCrash y = true :=
        fun y hy => hnc y (List.mem_cons_of_mem x hy)
      have hner : ∀ y ∈ rest, y.1 = f → eligible y = false :=
        fun y hy => hne y (List.mem_cons_of_mem x hy)
      rcases evalStep_cases emb x hx A R with ⟨_, hst⟩ | ⟨t, a, s, helig, _, _, hst⟩
      · rw [hst] at hfold
        exact ih A R A' R' hncr hner hfold
      · rw [hst] at hfold
        have hx1 : x.1 ≠ f := by
          intro hx1
          have hfalse := hne x (List.mem_cons_self x rest) hx1
          rw [helig] at hfalse
          exact Bool.noConfusion hfalse
        rw [ih _ _ A' R' hncr hner hfold,
          lookupKV_dictInsert_ne A s (Ne.symm hx1)]

lemma foldl_lookupKV_rec (emb : String → List ℝ) :
    ∀ (files : List (String × Json)) (A R A' R') (f : String) (d : Json),
      (∀ x ∈ files, noCrash x = true) →
      files.foldl (evalStep emb) (some (A, R)) = some (A', R') →
      (f, d) ∈ files → eligible (f, d) = true →
      (∀ x ∈ files, x.1 = f → x = (f, d)) →
      lookupKV A' f = scoreOf emb d := by
  intro files
  induction files with
  | nil =>
      intro A R A' R' f d _ _ hmem
      exact absurd hmem (List.not_mem_nil _)
  | cons x rest ih =>
      intro A R A' R' f d hnc hfold hmem helig huniq
      rw [List.foldl_cons] at hfold
      have hx := hnc x (List.mem_cons_self x rest)
      have hncr : ∀ y ∈ rest, noCrash y = true :=
        fun y hy => hnc y (List.mem_cons_of_mem x hy)
      have huniqr : ∀ y ∈ rest, y.1 = f → y = (f, d) :=
        fun y hy => huniq y (List.mem_cons_of_mem x hy)
      by_cases hxf : x.1 = f
      · have hxd : x = (f, d) := huniq x (List.mem_cons_self x rest) hxf
        subst hxd
        rcases evalStep_cases emb (f, d) hx A R with ⟨hef, _⟩ | ⟨t, a, s, _, _, hscore, hst⟩
        · rw [helig] at hef
          exact Bool.noConfusion hef
        · rw [hst] at hfold
          by_cases hdin : (f, d) ∈ rest
          · exact ih _ _ A' R' f d hncr hfold hdin helig huniqr
          · have hner : ∀ y ∈ rest, y.1 = f → eligible y = false := by
              intro y hy hyf
              exact absurd (huniqr y hy hyf ▸ hy) hdin
            rw [foldl_lookupKV_pres emb f rest _ _ A' R' hncr hner hfold,
              lookupKV_dictInsert_self, hscore]
      · have hmemr : (f, d) ∈ rest := by
          rcases List.mem_cons.mp hmem with h | h
          · exact absurd (congrArg Prod.fst h).symm hxf
          · exact h
        rcases evalStep_cases emb x hx A R with ⟨_, hst⟩ | ⟨t, a, s, _, _, _, hst⟩
        · rw [hst] at hfold
          exact ih A R A' R' f d hncr hfold hmemr helig huniqr
        · rw [hst] at hfold
          exact ih _ _ A' R' f d hncr hfold hmemr helig huniqr

lemma foldl_lookup2_last (emb : String → List ℝ) (t a : String) :
    ∀ (files : List (String × Json)) (A R A' R'),
      (∀ x ∈ files, noCrash x = true) →
      files.foldl (evalStep emb) (some (A, R)) = some (A', R') →
      lookup2 R' t a
        = match (files.filter fun x =>
              eligible x && decide (parse_filename x.1 = some (t, a))).getLast? with
          | some x => scoreOf emb x.2
          | none => lookup2 R t a := by
  intro files
  induction files with
  | nil =>
      intro A R A' R' _ hfold
      rw [List.foldl_nil] at hfold
      cases hfold
      rfl
  | cons x rest ih =>
      intro A R A' R' hnc hfold
      rw [List.foldl_cons] at hfold
      have hx := hnc x (List.mem_cons_self x rest)
      have hncr : ∀ y ∈ rest, noCrash y = true :=
        fun y hy => hnc y (List.mem_cons_of_mem x hy)
      rcases evalStep_cases emb x hx A R
        with ⟨hef, hst⟩ | ⟨tx, ax, s, helig, hpx, hscore, hst⟩
      · rw [hst] at hfold
        rw [ih A R A' R' hncr hfold, List.filter_cons_of_neg (by simp [hef])]
      · rw [hst] at hfold
        have hmain := ih _ _ A' R' hncr hfold
        by_cases hta : parse_filename x.1 = some (t, a)
        · have htx : tx = t ∧ ax = a := by
            rw [hpx] at hta
            simpa using hta
          obtain ⟨rfl, rfl⟩ := htx
          rw [List.filter_cons_of_pos (by simp [helig, hta])]
          cases hfr : (rest.filter fun y =>
              eligible y && decide (parse_filename y.1 = some (tx, ax))).getLast? with
          | none =>
              rw [hfr] at hmain
              simp only [] at hmain
              rw [hmain, lookup2_dictInsert2_self]
              cases hfl : rest.filter fun y =>
                  eligible y && decide (parse_filename y.1 = some (tx, ax)) with
              | nil => simp [hscore]
              | cons z zs =>
                  rw [hfl] at hfr
                  exact absurd hfr (by simp [List.getLast?_eq_getLast])
          | some y =>
              rw [hfr] at hmain
              simp only [] at hmain
              rw [hmain]
              cases hfl : rest.filter fun y =>
                  eligible y && decide (parse_filename y.1 = some (tx, ax)) with
              | nil =>
                  rw [hfl] at hfr
                  exact absurd hfr (by simp)
              | cons z zs =>
                  rw [hfl] at hfr
                  rw [List.getLast?_cons_cons, hfr]
        · have hne2 : ¬ (t = tx ∧ a = ax) := by
            rintro ⟨rfl, rfl⟩
            exact hta hpx
          rw [List.filter_cons_of_neg (by simp [hta])]
          cases hfr : (rest.filter fun y =>
              eligible y && decide (parse_filename y.1 = some (t, a))).getLast? with
          | none =>
              rw [hfr] at hmain
              simp only [] at hmain
              rw [hmain, lookup2_dictInsert2_ne R s hne2]
          | some y =>
              rw [hfr] at hmain
              exact hmain

/-- Claim C7 (amended): on a directory listing with distinct filenames in
which no file crashes the script (each file passing the name checks
decodes to a dict, and its reasons are strings whenever there are at
least 2 of them), `main` records a score for exactly the eligible files:
every file whose name parses into a nonempty approach and topic and which
yields at least 2 extracted reasons has its diversity score recorded
per-file under its filename; files whose names do not parse or which
yield fewer than 2 reasons appear in the per-file map not at all; and the
by-topic map holds, under each (topic, approach) pair, the score of the
last eligible file in listing order parsing to that pair (so a score can
be overwritten when several eligible files parse to the same pair; see
the counterexample). -/
theorem claim_C7_eval_main_records_eligible_files
    (emb : String → List ℝ) (files : List (String × Json))
    (hnd : (files.map Prod.fst).Nodup)
    (hnc : ∀ x ∈ files, noCrash x = true) :
    ∃ A R, evalMain emb files = some (A, R)
      ∧ (∀ file ∈ files, eligible file = true →
          lookupKV A file.1 = scoreOf emb file.2)
      ∧ (∀ file ∈ files, eligible file = false → lookupKV A file.1 = none)
      ∧ (∀ t a, lookup2 R t a
          = ((files.filter fun x =>
                eligible x && decide (parse_filename x.1 = some (t, a))).getLast?).bind
              fun x => scoreOf emb x.2) := by
  obtain ⟨A, R, hfold⟩ := foldl_evalStep_some emb files [] [] hnc
  refine ⟨A, R, hfold, ?_, ?_, ?_⟩
  · intro file hmem helig
    obtain ⟨f, d⟩ := file
    have huniq : ∀ x ∈ files, x.1 = f → x = (f, d) :=
      fun x hx hxf => List.inj_on_of_nodup_map hnd hx hmem hxf
    exact foldl_lookupKV_rec emb files [] [] A R f d hnc hfold hmem helig huniq
  · intro file hmem helig
    obtain ⟨f, d⟩ := file
    have hner : ∀ x ∈ files, x.1 = f → eligible x = false := by
      intro x hx hxf
      have hxd : x = (f, d) := List.inj_on_of_nodup_map hnd hx hmem hxf
      rw [hxd]
      exact helig
    rw [foldl_lookupKV_pres emb f files [] [] A R hnc hner hfold]
    rfl
  · intro t a
    have hlast := foldl_lookup2_last emb t a files [] [] A R hnc hfold
    cases hfr : (files.filter fun x =>
        eligible x && decide (parse_filename x.1 = some (t, a))).getLast? with
    | none =>
        rw [hfr] at hlast
        simpa using hlast
    | some y =>
        rw [hfr] at hlast
        simpa using hlast

/-- The concrete listing for the C7 instances.  The two filenames are in
Python `sorted` order (`'.' < '_'`), are distinct, and both parse to the
approach `"a"` and the topic `"b"` because `replace('.json', '')` deletes
the inner `".json"` of the first name. -/
def ceFileA : String × Json :=
  ("a.json_b.json",
    Json.obj [("1", Json.obj [("Reason", Json.str "p")]),
      ("2", Json.obj [("Reason", Json.str "q")])])

/-- Second file of the C7 counterexample listing. -/
def ceFileB : String × Json :=
  ("a_b.json",
    Json.obj [("1", Json.obj [("Reason", Json.str "p")]),
      ("2", Json.obj [("Reason", Json.str "p")])])

/-- A concrete embedding assignment for the C7 instances: `"p"` maps to
`[1, 0]`, every other text to `[0, 1]`. -/
noncomputable def embCE : String → List ℝ :=
  fun s => if s = "p" then [1, 0] else [0, 1]

lemma embCE_diversity_pq : calculate_semantic_diversity embCE ["p", "q"] = 1 := by
  have hp : embCE "p" = [1, 0] := if_pos rfl
  have hq : embCE "q" = [0, 1] := if_neg (by decide)
  unfold calculate_semantic_diversity
  rw [if_neg (by decide)]
  simp only [List.map_cons, List.map_nil, hp, hq, pairs, List.map_append,
    List.append_nil]
  simp [cosine_distance, np_dot, np_norm]

lemma embCE_diversity_pp : calculate_semantic_diversity embCE ["p", "p"] = 0 := by
  have hp : embCE "p" = [1, 0] := if_pos rfl
  unfold calculate_semantic_diversity
  rw [if_neg (by decide)]
  simp only [List.map_cons, List.map_nil, hp, pairs, List.map_append,
    List.append_nil]
  simp [cosine_distance, np_dot, np_norm]

/-- Counterexample to claim C7 as stated: in the listing
`[ceFileA, ceFileB]` both files are eligible and parse to the same
(topic, approach) pair `("b", "a")`; the first file's diversity score `1`
is recorded per-file, but the grouped map holds only the second file's
score `0`, so the first file's score is not "recorded grouped by topic
under its approach". -/
theorem claim_C7_counterexample :
    eligible ceFileA = true
      ∧ parse_filename ceFileA.1 = some ("b", "a")
      ∧ parse_filename ceFileB.1 = some ("b", "a")
      ∧ (evalMain embCE [ceFileA, ceFileB]).map
          (fun pr => (lookupKV pr.1 "a.json_b.json", lookup2 pr.2 "b" "a"))
        = some (some 1, some 0)
      ∧ (1 : ℝ) ≠ 0 := by
  refine ⟨by decide, by decide, by decide, ?_, one_ne_zero⟩
  have hpA : parse_filename "a.json_b.json" = some ("b", "a") := by decide
  have hpB : parse_filename "a_b.json" = some ("b", "a") := by decide
  have h1 : evalStep embCE (some ([], [])) ceFileA
      = some ([("a.json_b.json", calculate_semantic_diversity embCE ["p", "q"])],
          [("b", [("a", calculate_semantic_diversity embCE ["p", "q"])])]) := by
    simp [evalStep, ceFileA, hpA, extract_reasons, lookupKV, mapStr, asStr,
      dictInsert, dictInsert2]
  have h2 : evalStep embCE
        (some ([("a.json_b.json", calculate_semantic_diversity embCE ["p", "q"])],
          [("b", [("a", calculate_semantic_diversity embCE ["p", "q"])])])) ceFileB
      = some ([("a.json_b.json", calculate_semantic_diversity embCE ["p", "q"]),
            ("a_b.json", calculate_semantic_diversity embCE ["p", "p"])],
          [("b", [("a", calculate_semantic_diversity embCE ["p", "p"])])]) := by
    simp [evalStep, ceFileB, hpB, extract_reasons, lookupKV, mapStr, asStr,
      dictInsert, dictInsert2]
  show ((([ceFileA, ceFileB]).foldl (evalStep embCE) (some ([], []))).map
      (fun pr => (lookupKV pr.1 "a.json_b.json", lookup2 pr.2 "b" "a")))
    = some (some 1, some 0)
  rw [List.foldl_cons, h1, List.foldl_cons, h2, List.foldl_nil]
  simp [lookupKV, lookup2, embCE_diversity_pq, embCE_diversity_pp]

/-- Witness for C7 at a concrete one-file listing satisfying the
hypotheses. -/
theorem claim_C7_witness :
    (([ceFileA, ceFileB] : List (String × Json)).map Prod.fst).Nodup
      ∧ (∀ x ∈ ([ceFileA, ceFileB] : List (String × Json)), noCrash x = true)
      ∧ (∃ A R, evalMain embCE [ceFileA, ceFileB] = some (A, R)
          ∧ (∀ file ∈ ([ceFileA, ceFileB] : List (String × Json)),
              eligible file = true → lookupKV A file.1 = scoreOf embCE file.2)
          ∧ (∀ file ∈ ([ceFileA, ceFileB] : List (String × Json)),
              eligible file = false → lookupKV A file.1 = none)
          ∧ (∀ t a, lookup2 R t a
              = ((([ceFileA, ceFileB] : List (String × Json)).filter fun x =>
                    eligible x
                      && decide (parse_filename x.1 = some (t, a))).getLast?).bind
                  fun x => scoreOf embCE x.2)) :=
  ⟨by decide, by decide,
    claim_C7_eval_main_records_eligible_files embCE [ceFileA, ceFileB]
      (by decide) (by decide)⟩

end EvalDiv

namespace FmtRes

/-- The digits of a Python `int()` literal after the first one: digits,
with single underscores allowed between digits (CPython permits
`"1_0"` but rejects `"1__0"` and `"1_"`). -/
def digitsVal : Nat → List Char → Option Nat
  | acc, [] => some acc
  | acc, c :: rest =>
      if c = '_' then
        match rest with
        | [] => none
        | c2 :: rest2 =>
            if c2.isDigit then
              digitsVal (acc * 10 + (c2.toNat - '0'.toNat)) rest2
            else none
      else if c.isDigit then digitsVal (acc * 10 + (c.toNat - '0'.toNat)) rest
      else none

/-- A nonempty digit string (with underscore grouping), starting with a
digit. -/
def pyDigits : List Char → Option Nat
  | [] => none
  | c :: rest =>
      if c.isDigit then digitsVal (c.toNat - '0'.toNat) rest else none

/-- Strip leading and trailing whitespace, as Python `int()` does before
parsing. -/
def pyStrip (l : List Char) : List Char :=
  ((l.dropWhile Char.isWhitespace).reverse.dropWhile Char.isWhitespace).reverse

/-- The optional sign of a Python `int()` literal. -/
def pySigned (l : List Char) : Option Int :=
  match l with
  | [] => none
  | c :: rest =>
      if c = '+' then (pyDigits rest).map Int.ofNat
      else if c = '-' then (pyDigits rest).map fun n => -(n : Int)
      else (pyDigits l).map Int.ofNat

/-- Python `int(s)`, as used by
`sorted(perspectives.keys(), key=lambda x: int(x))`: optional surrounding
whitespace, an optional sign, then a nonempty digit string with single
underscores allowed between digits; `none` models the `ValueError`
raised on any other string.  (Non-ASCII decimal digits and whitespace,
which CPython also accepts, play no part in any statement below.) -/
def pyInt (s : String) : Option Int := pySigned (pyStrip s.toList)

/-- A decimal-numeral string: nonempty and consisting of ASCII digits
(the form used by claim C10's precondition). -/
def isNumeral (s : String) : Bool :=
  !s.toList.isEmpty && s.toList.all Char.isDigit

/-- Python `', '.join(x)`: defined on an iterable of strings — a JSON
array of strings, a string (whose characters are joined), or a dict
(whose keys, always strings, are joined) — and a `TypeError` (`none`)
otherwise. -/
def pyJoin : Json → Option String
  | Json.arr elems =>
      (EvalDiv.mapStr elems).map (String.intercalate ", ")
  | Json.str s =>
      some (String.intercalate ", " (s.toList.map fun c => String.mk [c]))
  | Json.obj kvs => some (String.intercalate ", " (kvs.map Prod.fst))
  | _ => none

/-- Rendering of a field value inside an f-string (Python `str()`).  It
is exact for strings, numbers, booleans and `None`; for nested lists and
dicts (which no claim inspects) the Python `repr` punctuation is
abbreviated. -/
def reprJson : Json → String
  | Json.str s => s
  | Json.num n => toString n
  | Json.bool b => if b then "True" else "False"
  | Json.null => "None"
  | Json.arr _ => "[...]"
  | Json.obj _ => "{...}"

/-- `format_perspective` from `format_results_unified.py` (lines 18-34).
`none` models an uncaught exception: a non-dict perspective (whose
`['Reason']` / `['Criteria']` access raises a `TypeError`), a
`'Criteria'` value that `', '.join` cannot join, or a missing
`'Reason'` key (`KeyError`); this mirrors the source, where the
criteria-based branch renders the optional `Stance`, the joined
`Criteria` and the `Reason`, and the free-form branch the optional
`Stance` and the `Reason`. -/
def format_perspective (num : String) (perspective : Json) : Option String :=
  match perspective with
  | Json.obj kvs =>
      match EvalDiv.lookupKV kvs "Criteria" with
      | some cr =>
          (pyJoin cr).bind fun crs =>
            (EvalDiv.lookupKV kvs "Reason").map fun r =>
              "\n  Perspective " ++ num ++ ":\n"
                ++ (match EvalDiv.lookupKV kvs "Stance" with
                    | some st => "    Position: " ++ reprJson st ++ "\n"
                    | none => "")
                ++ "    Key Criteria: " ++ crs ++ "\n"
                ++ "    Reasoning: " ++ reprJson r ++ "\n"
      | none =>
          (EvalDiv.lookupKV kvs "Reason").map fun r =>
            "\n  Perspective " ++ num ++ ":\n"
              ++ (match EvalDiv.lookupKV kvs "Stance" with
                  | some st => "    Position: " ++ reprJson st ++ "\n"
                  | none => "")
              ++ "    Reasoning: " ++ reprJson r ++ "\n"
  | _ => none

/-- Decorate each key with its `int()` value, in order; `none` when some
key fails to parse (CPython's `sorted` evaluates the key function on
every element before comparing). -/
def keyInts : List String → Option (List (Int × String))
  | [] => some []
  | k :: rest =>
    match pyInt k, keyInts rest with
    | some n, some ps => some ((n, k) :: ps)
    | _, _ => none

/-- Stable insertion of a decorated key: the new element goes after all
existing elements with a key less than or equal to its own. -/
def sInsert (p : Int × String) : List (Int × String) → List (Int × String)
  | [] => [p]
  | q :: rest => if q.1 ≤ p.1 then q :: sInsert p rest else p :: q :: rest

/-- A stable sort by `int()` value, processing elements left to right:
the same output as CPython's stable `sorted(keys, key=int)`. -/
def sSort (l : List (Int × String)) : List (Int × String) :=
  l.foldl (fun acc p => sInsert p acc) []

/-- `sorted(perspectives.keys(), key=lambda x: int(x))` (line 98):
`none` models the `ValueError` when some key is not `int()`-parseable. -/
def sortKeys (kvs : List (String × Json)) : Option (List String) :=
  (keyInts (kvs.map Prod.fst)).map fun ps => (sSort ps).map Prod.snd

/-- Sequence an option-producing function over a list, failing if any
element fails (the loop raises at the first failing element). -/
def mapOpt {α β : Type _} (g : α → Option β) : List α → Option (List β)
  | [] => some []
  | x :: rest =>
    match g x, mapOpt g rest with
    | some y, some ys => some (y :: ys)
    | _, _ => none

/-- The per-file rendering block of `display_results` (lines 94-102):
sort the keys numerically and render `perspectives[key]` for each key in
that order, then append the `Total perspectives` line; `none` models an
uncaught exception (non-dict decoded content raises at
`perspectives.keys()`, an unparseable key at `int`, a bad perspective in
`format_perspective`). -/
def renderFile (perspectives : Json) : Option (List String) :=
  match perspectives with
  | Json.obj kvs =>
      (sortKeys kvs).bind fun ks =>
        (mapOpt (fun k =>
            (EvalDiv.lookupKV kvs k).bind fun p => format_perspective k p) ks).map
          fun lines =>
            lines ++ ["\n  Total perspectives: " ++ toString kvs.length]
  | _ => none

/-- The `TOPIC_INFO` dict of `format_results_unified.py` (lines 12-16). -/
def TOPIC_INFO : List (String × String) :=
  [("elections",
      "How should we increase the general public's trust in US elections?"),
    ("littering",
      "What are the best policies to prevent littering in public spaces?"),
    ("campus_protests",
      "What are your thoughts on the way university campus administrators should approach the issue of Israel/Gaza demonstrations?")]

/-- The `--shot-type` argument: `argparse` restricts it to `1-shot`,
`5-shot` or `all`, so `get_method_groups`' `ValueError` branch is
unreachable. -/
inductive ShotFilter : Type
  | oneShot
  | fiveShot
  | all

/-- `get_method_groups` from `format_results_unified.py` (lines 36-48). -/
def get_method_groups : ShotFilter → List (String × List String)
  | .all =>
      [("5-shot", ["criteria-based", "free-form"]),
        ("1-shot", ["1-shot-criteria-based", "1-shot-free-form"])]
  | .fiveShot => [("5-shot", ["criteria-based", "free-form"])]
  | .oneShot => [("1-shot", ["1-shot-criteria-based", "1-shot-free-form"])]

/-- The (method, topic) pairs probed by the loop nest of
`display_results` (lines 71-102), in order: topics outermost, then
method groups, then methods. -/
def probes (sf : ShotFilter) : List (String × String) :=
  TOPIC_INFO.flatMap fun ti =>
    (get_method_groups sf).flatMap fun g => g.2.map fun m => (m, ti.1)

/-- Filesystem / network events of a script run. -/
inductive Event : Type
  | read (path : String)
  | write (path : String)
  | api
deriving DecidableEq

/-- The body of the loop nest of `display_results` (lines 71-102) over
the probe list: the `open` events and the collected per-file lines
(banner and separator lines, which no claim inspects, are elided).  A
missing file contributes a `Missing` line and no read; a raise inside a
file's rendering aborts the remaining probes. -/
def renderAll (fs : List (String × Json)) :
    List (String × String) → List Event × Option (List String)
  | [] => ([], some [])
  | (m, t) :: rest =>
    let fname := m ++ "_" ++ t ++ ".json"
    match EvalDiv.lookupKV fs fname with
    | none =>
        let r := renderAll fs rest
        (r.1, r.2.map fun ls => ("\n  Missing: " ++ fname) :: ls)
    | some content =>
        match renderFile content with
        | none => ([Event.read fname], none)
        | some ls =>
            let r := renderAll fs rest
            (Event.read fname :: r.1, r.2.map fun rest' => ls ++ rest')

/-- `display_results` from `format_results_unified.py` (lines 50-118):
over an abstract directory state `fs` (the decoded content of each
existing output file).  Returns the event trace and the output lines
(`none` models an uncaught exception).  When the output directory does
not exist the function prints a message and returns without writing;
when a save target is given and rendering completed, the formatted
results are written to it. -/
def display_results (dirExists : Bool) (fs : List (String × Json))
    (sf : ShotFilter) (save_file : Option String) :
    List Event × Option (List String) :=
  if dirExists = false then
    ([], some ["Output directory not found. Please run generation script first."])
  else
    match renderAll fs (probes sf) with
    | (evs, none) => (evs, none)
    | (evs, some ls) =>
        match save_file with
        | some path => (evs ++ [Event.write path], some ls)
        | none => (evs, some ls)

lemma renderAll_no_api (fs : List (String × Json)) :
    ∀ ps : List (String × String), Event.api ∉ (renderAll fs ps).1 := by
  intro ps
  induction ps with
  | nil => simp [renderAll]
  | cons p rest ih =>
      obtain ⟨m, t⟩ := p
      rw [renderAll]
      cases hl : EvalDiv.lookupKV fs (m ++ "_" ++ t ++ ".json") with
      | none => simpa using ih
      | some content =>
          cases hr : renderFile content with
          | none => simp [hr]
          | some ls => simpa [hr] using ih

/-- Counterexample to claim C5 as stated: with an existing but empty
output directory, `display_results` writes its formatted-results file
while its event trace contains no remote API call at all — the whole
trace is the single write. -/
theorem claim_C5_counterexample :
    (display_results true [] ShotFilter.all
        (some "outputs/formatted_results_all.txt")).1
      = [Event.write "outputs/formatted_results_all.txt"]
    ∧ Event.api ∉ (display_results true [] ShotFilter.all
        (some "outputs/formatted_results_all.txt")).1 := by
  exact ⟨by decide, by decide⟩

/-- Claim C5 (amended): not every script calls a remote API before
writing its output file: the formatting script's `display_results`
performs no remote API call whatsoever — its event trace, for every
directory state, shot filter and save target, consists of file reads and
at most one file write, never an API call.  (The generation and
evaluation scripts do call remote APIs; the spec sentence fails only for
the formatting script.) -/
theorem claim_C5_display_results_never_calls_api
    (dirExists : Bool) (fs : List (String × Json)) (sf : ShotFilter)
    (save_file : Option String) :
    Event.api ∉ (display_results dirExists fs sf save_file).1 := by
  unfold display_results
  by_cases hd : dirExists = false
  · simp [hd]
  · rw [if_neg hd]
    have hra := renderAll_no_api fs (probes sf)
    cases hrv : renderAll fs (probes sf) with
    | mk evs res =>
        rw [hrv] at hra
        cases res with
        | none => exact hra
        | some ls =>
            cases save_file with
            | none => exact hra
            | some path =>
                simp only [List.mem_append]
                rintro (h | h)
                · exact hra h
                · simp at h

lemma digit_ne_underscore {c : Char} (hc : c.isDigit = true) : ¬ c = '_' := by
  intro h
  rw [h] at hc
  exact absurd hc (by decide)

lemma digitsVal_isSome :
    ∀ (l : List Char) (acc : Nat),
      l.all Char.isDigit = true → (digitsVal acc l).isSome = true := by
  intro l
  induction l with
  | nil => intro acc _; rfl
  | cons c rest ih =>
      intro acc hall
      rw [List.all_cons, Bool.and_eq_true] at hall
      have hstep : digitsVal acc (c :: rest)
          = digitsVal (acc * 10 + (c.toNat - '0'.toNat)) rest := by
        conv_lhs => rw [digitsVal.eq_def]
        dsimp only
        rw [if_neg (digit_ne_underscore hall.1), if_pos hall.1]
      rw [hstep]
      exact ih _ hall.2

lemma pyDigits_isSome {l : List Char} (hne : l ≠ [])
    (hall : l.all Char.isDigit = true) : (pyDigits l).isSome = true := by
  cases l with
  | nil => exact absurd rfl hne
  | cons c rest =>
      rw [List.all_cons, Bool.and_eq_true] at hall
      rw [pyDigits, if_pos hall.1]
      exact digitsVal_isSome rest _ hall.2

lemma digit_not_ws {c : Char} (hc : c.isDigit = true) :
    c.isWhitespace = false := by
  have h48 : 48 ≤ c.val.toNat ∧ c.val.toNat ≤ 57 := by
    unfold Char.isDigit at hc
    rw [Bool.and_eq_true, decide_eq_true_eq, decide_eq_true_eq] at hc
    exact ⟨hc.1, hc.2⟩
  unfold Char.isWhitespace
  have hne : ∀ d : Char, d.val.toNat ∉ Set.Icc 48 57 → ¬ c = d := by
    intro d hd h
    exact hd (h ▸ Set.mem_Icc.mpr h48)
  simp only [Bool.or_eq_false_iff, decide_eq_false_iff_not]
  exact ⟨⟨⟨hne ' ' (by decide), hne '\t' (by decide)⟩, hne '\r' (by decide)⟩,
    hne '\n' (by decide)⟩

lemma pyStrip_of_digits {l : List Char}
    (hall : l.all Char.isDigit = true) : pyStrip l = l := by
  unfold pyStrip
  have h1 : l.dropWhile Char.isWhitespace = l := by
    cases l with
    | nil => rfl
    | cons c rest =>
        rw [List.all_cons, Bool.and_eq_true] at hall
        rw [List.dropWhile_cons, digit_not_ws hall.1]
        simp
  rw [h1]
  have h2 : l.reverse.dropWhile Char.isWhitespace = l.reverse := by
    cases hrev : l.reverse with
    | nil => rfl
    | cons c rest =>
        have hc : c.isDigit = true := by
          have hmem : c ∈ l := by
            rw [← List.mem_reverse, hrev]
            exact List.mem_cons_self c rest
          exact List.all_eq_true.mp hall c hmem
        rw [List.dropWhile_cons, digit_not_ws hc]
        simp
  rw [h2, List.reverse_reverse]

lemma pyInt_of_isNumeral {s : String} (h : isNumeral s = true) :
    ∃ n : ℕ, pyInt s = some (Int.ofNat n) := by
  unfold isNumeral at h
  rw [Bool.and_eq_true] at h
  have hne : s.toList ≠ [] := by
    intro hempty
    rw [hempty] at h
    exact absurd h.1 (by decide)
  have hall := h.2
  unfold pyInt
  rw [pyStrip_of_digits hall]
  cases hl : s.toList with
  | nil => exact absurd hl hne
  | cons c rest =>
      rw [hl] at hall
      rw [List.all_cons, Bool.and_eq_true] at hall
      have hplus : ¬ c = '+' := by
        intro hcp
        rw [hcp] at hall
        exact absurd hall.1 (by decide)
      have hminus : ¬ c = '-' := by
        intro hcm
        rw [hcm] at hall
        exact absurd hall.1 (by decide)
      rw [pySigned, if_neg hplus, if_neg hminus]
      have hds : (pyDigits (c :: rest)).isSome = true := by
        rw [pyDigits, if_pos hall.1]
        exact digitsVal_isSome rest _ hall.2
      obtain ⟨n, hn⟩ := Option.isSome_iff_exists.mp hds
      exact ⟨n, by rw [hn]; rfl⟩

lemma lookupKV_isSome_of_mem {β : Type _} {l : List (String × β)} {k : String}
    (h : k ∈ l.map Prod.fst) : (EvalDiv.lookupKV l k).isSome = true := by
  induction l with
  | nil => simp at h
  | cons kv rest ih =>
      obtain ⟨k₀, v₀⟩ := kv
      by_cases hk : k₀ = k
      · simp [EvalDiv.lookupKV, hk]
      · rw [List.map_cons, List.mem_cons] at h
        rcases h with h | h
        · exact absurd h.symm hk
        · simpa [EvalDiv.lookupKV, hk] using ih h

lemma lookupKV_mem {β : Type _} {l : List (String × β)} {k : String} {v : β}
    (h : EvalDiv.lookupKV l k = some v) : (k, v) ∈ l := by
  induction l with
  | nil => simp [EvalDiv.lookupKV] at h
  | cons kv rest ih =>
      obtain ⟨k₀, v₀⟩ := kv
      by_cases hk : k₀ = k
      · rw [EvalDiv.lookupKV, if_pos hk] at h
        obtain rfl := Option.some.inj h
        rw [hk]
        exact List.mem_cons_self _ _
      · rw [EvalDiv.lookupKV, if_neg hk] at h
        exact List.mem_cons_of_mem _ (ih h)

lemma lookupKV_eq_of_mem_nodup {β : Type _} {l : List (String × β)}
    {k : String} {v : β} (hnd : (l.map Prod.fst).Nodup) (h : (k, v) ∈ l) :
    EvalDiv.lookupKV l k = some v := by
  induction l with
  | nil => simp at h
  | cons kv rest ih =>
      obtain ⟨k₀, v₀⟩ := kv
      rw [List.map_cons, List.nodup_cons] at hnd
      rcases List.mem_cons.mp h with heq | hmem
      · obtain ⟨rfl, rfl⟩ := Prod.mk.inj heq
        rw [EvalDiv.lookupKV, if_pos rfl]
      · by_cases hk : k₀ = k
        · subst hk
          exact absurd (List.mem_map_of_mem Prod.fst hmem) hnd.1
        · rw [EvalDiv.lookupKV, if_neg hk]
          exact ih hnd.2 hmem

lemma mem_sInsert {p q : Int × String} :
    ∀ {l : List (Int × String)}, q ∈ sInsert p l ↔ q = p ∨ q ∈ l := by
  intro l
  induction l with
  | nil => simp [sInsert]
  | cons r rest ih =>
      rw [sInsert]
      by_cases hr : r.1 ≤ p.1
      · rw [if_pos hr]
        simp only [List.mem_cons, ih]
        tauto
      · rw [if_neg hr]
        simp only [List.mem_cons]

lemma sInsert_perm (p : Int × String) (l : List (Int × String)) :
    (sInsert p l).Perm (p :: l) := by
  induction l with
  | nil => exact List.Perm.refl _
  | cons q rest ih =>
      rw [sInsert]
      by_cases hq : q.1 ≤ p.1
      · rw [if_pos hq]
        exact (ih.cons q).trans (List.Perm.swap p q rest)
      · rw [if_neg hq]

lemma sInsert_pairwise (p : Int × String) {l : List (Int × String)}
    (h : l.Pairwise fun x y => x.1 ≤ y.1) :
    (sInsert p l).Pairwise fun x y => x.1 ≤ y.1 := by
  induction l with
  | nil => simp [sInsert]
  | cons q rest ih =>
      rw [List.pairwise_cons] at h
      rw [sInsert]
      by_cases hq : q.1 ≤ p.1
      · rw [if_pos hq, List.pairwise_cons]
        refine ⟨?_, ih h.2⟩
        intro r hr
        rcases mem_sInsert.mp hr with rfl | hr
        · exact hq
        · exact h.1 r hr
      · rw [if_neg hq, List.pairwise_cons]
        refine ⟨?_, List.pairwise_cons.mpr h⟩
        intro r hr
        rcases List.mem_cons.mp hr with rfl | hr
        · exact (not_le.mp hq).le
        · exact (not_le.mp hq).le.trans (h.1 r hr)

lemma sSort_perm (l : List (Int × String)) : (sSort l).Perm l := by
  have key : ∀ (l : List (Int × String)) (acc : List (Int × String)),
      (l.foldl (fun acc p => sInsert p acc) acc).Perm (l ++ acc) := by
    intro l
    induction l with
    | nil => exact fun acc => List.Perm.refl _
    | cons x rest ih =>
        intro acc
        rw [List.foldl_cons]
        refine (ih (sInsert x acc)).trans ?_
        refine (List.Perm.append_left rest (sInsert_perm x acc)).trans ?_
        exact List.perm_middle
  simpa using key l []

lemma sSort_pairwise (l : List (Int × String)) :
    (sSort l).Pairwise fun x y => x.1 ≤ y.1 := by
  have key : ∀ (l : List (Int × String)) (acc : List (Int × String)),
      (acc.Pairwise fun x y => x.1 ≤ y.1) →
        (l.foldl (fun acc p => sInsert p acc) acc).Pairwise fun x y => x.1 ≤ y.1 := by
    intro l
    induction l with
    | nil => exact fun acc h => h
    | cons x rest ih =>
        intro acc h
        rw [List.foldl_cons]
        exact ih _ (sInsert_pairwise x h)
  exact key l [] (by simp)

lemma keyInts_of_all {ks : List String}
    (h : ∀ k ∈ ks, (pyInt k).isSome = true) :
    ∃ ps, keyInts ks = some ps ∧ ps.map Prod.snd = ks
      ∧ ∀ p ∈ ps, pyInt p.2 = some p.1 := by
  induction ks with
  | nil => exact ⟨[], rfl, rfl, by simp⟩
  | cons k rest ih =>
      obtain ⟨n, hn⟩ := Option.isSome_iff_exists.mp
        (h k (List.mem_cons_self k rest))
      obtain ⟨ps, hps, hmap, hall⟩ :=
        ih fun k2 hk2 => h k2 (List.mem_cons_of_mem k hk2)
      refine ⟨(n, k) :: ps, ?_, ?_, ?_⟩
      · rw [keyInts, hn, hps]
      · rw [List.map_cons, hmap]
      · intro p hp
        rcases List.mem_cons.mp hp with rfl | hp
        · exact hn
        · exact hall p hp

lemma keyInts_none_of_mem {ks : List String} {k : String}
    (hk : k ∈ ks) (hpi : pyInt k = none) : keyInts ks = none := by
  induction ks with
  | nil => simp at hk
  | cons k₀ rest ih =>
      rw [keyInts]
      rcases List.mem_cons.mp hk with rfl | hmem
      · rw [hpi]
      · rw [ih hmem]
        cases pyInt k₀ <;> rfl

lemma sortKeys_of_numerals {kvs : List (String × Json)}
    (h : (kvs.all fun kv => isNumeral kv.1) = true) :
    ∃ ks, sortKeys kvs = some ks ∧ ks.Perm (kvs.map Prod.fst)
      ∧ ks.Pairwise fun a b => ∀ na nb,
          pyInt a = some na → pyInt b = some nb → na ≤ nb := by
  have hsome : ∀ k ∈ kvs.map Prod.fst, (pyInt k).isSome = true := by
    intro k hk
    obtain ⟨kv, hkv, rfl⟩ := List.mem_map.mp hk
    obtain ⟨n, hn⟩ := pyInt_of_isNumeral (List.all_eq_true.mp h kv hkv)
    rw [hn]
    rfl
  obtain ⟨ps, hps, hmap, hall⟩ := keyInts_of_all hsome
  refine ⟨(sSort ps).map Prod.snd, ?_, ?_, ?_⟩
  · rw [sortKeys, hps]
    rfl
  · rw [← hmap]
    exact (sSort_perm ps).map Prod.snd
  · rw [List.pairwise_map]
    refine (sSort_pairwise ps).imp_of_mem ?_
    intro p q hp hq hle na nb hna hnb
    have hp2 : pyInt p.2 = some p.1 := hall p ((sSort_perm ps).mem_iff.mp hp)
    have hq2 : pyInt q.2 = some q.1 := hall q ((sSort_perm ps).mem_iff.mp hq)
    rw [hp2] at hna
    rw [hq2] at hnb
    obtain rfl := Option.some.inj hna
    obtain rfl := Option.some.inj hnb
    exact hle

lemma mapStr_isSome {l : List Json}
    (h : ∀ j ∈ l, (EvalDiv.asStr j).isSome = true) :
    (EvalDiv.mapStr l).isSome = true := by
  induction l with
  | nil => rfl
  | cons j rest ih =>
      obtain ⟨s, hs⟩ := Option.isSome_iff_exists.mp
        (h j (List.mem_cons_self j rest))
      obtain ⟨ss, hss⟩ := Option.isSome_iff_exists.mp
        (ih fun j2 hj2 => h j2 (List.mem_cons_of_mem j hj2))
      rw [EvalDiv.mapStr, hs, hss]
      rfl

lemma mapOpt_isSome {α β : Type _} {g : α → Option β} :
    ∀ {l : List α}, (∀ x ∈ l, (g x).isSome = true) →
      (mapOpt g l).isSome = true := by
  intro l
  induction l with
  | nil => exact fun _ => rfl
  | cons x rest ih =>
      intro h
      obtain ⟨y, hy⟩ := Option.isSome_iff_exists.mp
        (h x (List.mem_cons_self x rest))
      obtain ⟨ys, hys⟩ := Option.isSome_iff_exists.mp
        (ih fun x2 hx2 => h x2 (List.mem_cons_of_mem x hx2))
      rw [mapOpt, hy, hys]
      rfl

lemma mapOpt_none_of_mem {α β : Type _} {g : α → Option β} {x : α} :
    ∀ {l : List α}, x ∈ l → g x = none → mapOpt g l = none := by
  intro l
  induction l with
  | nil => intro h; simp at h
  | cons y rest ih =>
      intro hmem hg
      rw [mapOpt]
      rcases List.mem_cons.mp hmem with rfl | hmem
      · rw [hg]
      · rw [ih hmem hg]
        cases g y <;> rfl

/-- The precondition on a single perspective under which
`format_perspective` cannot raise: a dict containing `'Reason'` whose
`'Criteria'` value, when present, is an array of strings. -/
def perspOk : Json → Bool
  | Json.obj kvs =>
      (EvalDiv.lookupKV kvs "Reason").isSome
        && (match EvalDiv.lookupKV kvs "Criteria" with
            | none => true
            | some (Json.arr elems) =>
                elems.all fun e => (EvalDiv.asStr e).isSome
            | some _ => false)
  | _ => false

/-- The precondition claim C10 states for a decoded output file: a dict
whose every key is a decimal-numeral string and whose every value is an
object containing the key `'Reason'`. -/
def fileOkOrig : Json → Bool
  | Json.obj kvs =>
      (kvs.all fun kv => isNumeral kv.1)
        && (kvs.all fun kv =>
            match kv.2 with
            | Json.obj inner => (EvalDiv.lookupKV inner "Reason").isSome
            | _ => false)
  | _ => false

/-- The amended precondition on a decoded output file: decimal-numeral
keys and `perspOk` values. -/
def fileOk : Json → Bool
  | Json.obj kvs =>
      (kvs.all fun kv => isNumeral kv.1) && (kvs.all fun kv => perspOk kv.2)
  | _ => false

lemma format_perspective_of_perspOk {p : Json} (h : perspOk p = true)
    (num : String) : (format_perspective num p).isSome = true := by
  cases p with
  | obj kvs =>
      rw [perspOk, Bool.and_eq_true] at h
      obtain ⟨r, hr⟩ := Option.isSome_iff_exists.mp h.1
      have h2 := h.2
      rw [format_perspective]
      cases hcr : EvalDiv.lookupKV kvs "Criteria" with
      | none => simp [hr]
      | some cr =>
          rw [hcr] at h2
          cases cr with
          | arr elems =>
              have hjoin : (pyJoin (Json.arr elems)).isSome = true := by
                rw [pyJoin]
                obtain ⟨ss, hss⟩ := Option.isSome_iff_exists.mp
                  (mapStr_isSome fun j hj => List.all_eq_true.mp h2 j hj)
                rw [hss]
                rfl
              obtain ⟨crs, hcrs⟩ := Option.isSome_iff_exists.mp hjoin
              simp [hcrs, hr]
          | str s => exact Bool.noConfusion h2
          | num n => exact Bool.noConfusion h2
          | bool b => exact Bool.noConfusion h2
          | null => exact Bool.noConfusion h2
          | obj kvs2 => exact Bool.noConfusion h2
  | str s => exact Bool.noConfusion h
  | num n => exact Bool.noConfusion h
  | bool b => exact Bool.noConfusion h
  | null => exact Bool.noConfusion h
  | arr elems => exact Bool.noConfusion h

lemma format_perspective_none_of_no_reason {kvs : List (String × Json)}
    (h : EvalDiv.lookupKV kvs "Reason" = none) (num : String) :
    format_perspective num (Json.obj kvs) = none := by
  rw [format_perspective]
  cases hcr : EvalDiv.lookupKV kvs "Criteria" with
  | none => simp [h]
  | some cr =>
      cases hj : pyJoin cr with
      | none => simp [hj]
      | some crs => simp [hj, h]

lemma renderFile_of_fileOk {d : Json} (h : fileOk d = true) :
    (renderFile d).isSome = true := by
  cases d with
  | obj kvs =>
      rw [fileOk, Bool.and_eq_true] at h
      obtain ⟨ks, hks, hperm, _⟩ := sortKeys_of_numerals h.1
      rw [renderFile, hks]
      have hmo : (mapOpt (fun k =>
          (EvalDiv.lookupKV kvs k).bind fun p => format_perspective k p)
            ks).isSome = true := by
        apply mapOpt_isSome
        intro k hk
        have hkmem : k ∈ kvs.map Prod.fst := hperm.mem_iff.mp hk
        obtain ⟨v, hv⟩ := Option.isSome_iff_exists.mp
          (lookupKV_isSome_of_mem hkmem)
        have hpv : perspOk v = true :=
          List.all_eq_true.mp h.2 (k, v) (lookupKV_mem hv)
        rw [hv]
        simpa using format_perspective_of_perspOk hpv k
      obtain ⟨lines, hl⟩ := Option.isSome_iff_exists.mp hmo
      simp [hl]
  | str s => exact Bool.noConfusion h
  | num n => exact Bool.noConfusion h
  | bool b => exact Bool.noConfusion h
  | null => exact Bool.noConfusion h
  | arr elems => exact Bool.noConfusion h

lemma renderFile_none_of_bad_key {kvs : List (String × Json)} {k : String}
    (hk : k ∈ kvs.map Prod.fst) (hpi : pyInt k = none) :
    renderFile (Json.obj kvs) = none := by
  rw [renderFile, sortKeys, keyInts_none_of_mem hk hpi]
  rfl

lemma renderFile_none_of_missing_reason {kvs inner : List (String × Json)}
    {k : String} (hnd : (kvs.map Prod.fst).Nodup)
    (hnum : (kvs.all fun kv => isNumeral kv.1) = true)
    (hmem : (k, Json.obj inner) ∈ kvs)
    (hno : EvalDiv.lookupKV inner "Reason" = none) :
    renderFile (Json.obj kvs) = none := by
  obtain ⟨ks, hks, hperm, _⟩ := sortKeys_of_numerals hnum
  rw [renderFile, hks]
  have hkmem : k ∈ ks := hperm.mem_iff.mpr (List.mem_map_of_mem Prod.fst hmem)
  have hlk : EvalDiv.lookupKV kvs k = some (Json.obj inner) :=
    lookupKV_eq_of_mem_nodup hnd hmem
  have hgnone : ((EvalDiv.lookupKV kvs k).bind fun p => format_perspective k p)
      = none := by
    rw [hlk]
    simpa using format_perspective_none_of_no_reason hno k
  have hmo := @mapOpt_none_of_mem String String
    (fun k2 => (EvalDiv.lookupKV kvs k2).bind fun p => format_perspective k2 p)
    k ks hkmem hgnone
  simp [hmo]

lemma renderAll_isSome {fs : List (String × Json)}
    (hok : ∀ x ∈ fs, fileOk x.2 = true) :
    ∀ ps : List (String × String), ((renderAll fs ps).2).isSome = true := by
  intro ps
  induction ps with
  | nil => rfl
  | cons p rest ih =>
      obtain ⟨m, t⟩ := p
      rw [renderAll]
      cases hl : EvalDiv.lookupKV fs (m ++ "_" ++ t ++ ".json") with
      | none => simpa using ih
      | some content =>
          have hcont : fileOk content = true := hok _ (lookupKV_mem hl)
          obtain ⟨ls, hls⟩ := Option.isSome_iff_exists.mp
            (renderFile_of_fileOk hcont)
          simpa [hls] using ih

/-- The decoded file of the C10 counterexample: its keys are decimal
numerals and its only value is a dict containing `'Reason'` — the
precondition claim C10 states — but its `'Criteria'` value is the number
`5`, which `', '.join` cannot join. -/
def c10File : Json :=
  Json.obj [("1",
    Json.obj [("Reason", Json.str "r"), ("Criteria", Json.num 5)])]

/-- Counterexample to claim C10 as stated.  First part: the stated
precondition holds for `c10File`, yet `display_results` raises (the
criteria-based branch of `format_perspective` evaluates
`', '.join(5)`, a `TypeError`).  Second part: the parenthetical "a
non-numeral key makes the function raise" also fails: the key `"-3"` is
not a decimal numeral, yet `int("-3")` succeeds and the file renders
without raising. -/
theorem claim_C10_counterexample :
    fileOkOrig c10File = true
      ∧ (display_results true [("criteria-based_elections.json", c10File)]
          ShotFilter.all (some "outputs/formatted_results_all.txt")).2 = none
      ∧ isNumeral "-3" = false
      ∧ (renderFile (Json.obj [("-3", Json.obj [("Reason", Json.str "r")])])).isSome
          = true :=
  ⟨by decide, by decide, by decide, by decide⟩

/-- Claim C10 (amended): `display_results` completes without raising
provided every existing output JSON file decodes to a dict whose keys
are decimal-numeral strings, whose values are objects containing
`'Reason'`, and whose `'Criteria'` fields, when present, are arrays of
strings; under the key precondition the keys are rendered in ascending
`int(key)` order (the sorted key list is a permutation of the dict's
keys, pairwise ordered by their integer values); a key on which Python's
`int()` fails makes the function raise, as does a value that is an
object with no `'Reason'` key. -/
theorem claim_C10_display_results_safety
    (dirExists : Bool) (fs : List (String × Json)) (sf : ShotFilter)
    (save : Option String) (kvs : List (String × Json))
    (k : String) (inner : List (String × Json)) :
    ((∀ x ∈ fs, fileOk x.2 = true) →
        ((display_results dirExists fs sf save).2).isSome = true)
    ∧ ((kvs.all fun kv => isNumeral kv.1) = true →
        ∃ ks, sortKeys kvs = some ks ∧ ks.Perm (kvs.map Prod.fst)
          ∧ ks.Pairwise fun a b => ∀ na nb,
              pyInt a = some na → pyInt b = some nb → na ≤ nb)
    ∧ (k ∈ kvs.map Prod.fst → pyInt k = none →
        renderFile (Json.obj kvs) = none)
    ∧ ((kvs.map Prod.fst).Nodup → (kvs.all fun kv => isNumeral kv.1) = true →
        (k, Json.obj inner) ∈ kvs → EvalDiv.lookupKV inner "Reason" = none →
        renderFile (Json.obj kvs) = none) := by
  refine ⟨?_, fun h => sortKeys_of_numerals h,
    fun hk hpi => renderFile_none_of_bad_key hk hpi,
    fun hnd hnum hmem hno =>
      renderFile_none_of_missing_reason hnd hnum hmem hno⟩
  intro hok
  unfold display_results
  by_cases hd : dirExists = false
  · simp [hd]
  · rw [if_neg hd]
    have hra := renderAll_isSome hok (probes sf)
    cases hrv : renderAll fs (probes sf) with
    | mk evs res =>
        rw [hrv] at hra
        cases res with
        | none => exact Bool.noConfusion hra
        | some ls =>
            cases save with
            | none => rfl
            | some path => rfl

/-- A well-formed decoded file for the C10 witness. -/
def c10GoodFile : Json :=
  Json.obj [("2", Json.obj [("Reason", Json.str "b")]),
    ("1", Json.obj [("Reason", Json.str "a"), ("Stance", Json.str "s"),
      ("Criteria", Json.arr [Json.str "c"])])]

/-- Witness for C10, exercising each conjunct of the amended claim at
concrete inputs. -/
theorem claim_C10_witness :
    (∀ x ∈ [("criteria-based_elections.json", c10GoodFile)], fileOk x.2 = true)
      ∧ ((display_results true [("criteria-based_elections.json", c10GoodFile)]
          ShotFilter.all (some "outputs/formatted_results_all.txt")).2).isSome
          = true
      ∧ ((([("2", Json.str "b"), ("1", Json.str "a")] :
            List (String × Json)).all fun kv => isNumeral kv.1) = true)
      ∧ (∃ ks, sortKeys [("2", Json.str "b"), ("1", Json.str "a")] = some ks
          ∧ ks.Perm ((([("2", Json.str "b"), ("1", Json.str "a")] :
              List (String × Json))).map Prod.fst)
          ∧ ks.Pairwise fun a b => ∀ na nb,
              pyInt a = some na → pyInt b = some nb → na ≤ nb)
      ∧ ("x" ∈ ([("x", Json.obj [("Reason", Json.str "r")])] :
            List (String × Json)).map Prod.fst)
      ∧ pyInt "x" = none
      ∧ renderFile (Json.obj [("x", Json.obj [("Reason", Json.str "r")])]) = none
      ∧ (("1", Json.obj [("Stance", Json.str "s")])
          ∈ ([("1", Json.obj [("Stance", Json.str "s")])] : List (String × Json)))
      ∧ EvalDiv.lookupKV [("Stance", Json.str "s")] "Reason" = none
      ∧ renderFile (Json.obj [("1", Json.obj [("Stance", Json.str "s")])]) = none :=
  ⟨by decide,
    (claim_C10_display_results_safety true
        [("criteria-based_elections.json", c10GoodFile)] ShotFilter.all
        (some "outputs/formatted_results_all.txt") [] "" []).1 (by decide),
    by decide,
    (claim_C10_display_results_safety true [] ShotFilter.all none
        [("2", Json.str "b"), ("1", Json.str "a")] "" []).2.1 (by decide),
    by decide, by decide,
    (claim_C10_display_results_safety true [] ShotFilter.all none
        [("x", Json.obj [("Reason", Json.str "r")])] "x" []).2.2.1
      (by decide) (by decide),
    List.mem_cons_self _ _, rfl,
    (claim_C10_display_results_safety true [] ShotFilter.all none
        [("1", Json.obj [("Stance", Json.str "s")])] "1"
        [("Stance", Json.str "s")]).2.2.2
      (by decide) (by decide) (List.mem_cons_self _ _) rfl⟩

end FmtRes
